import Mathlib

/-!
# Verification of `src/task/08-objects-tasks.js`

Shallow embedding of the repository's single source file:

* `Rectangle` with its `getArea` prototype method;
* `getJSON` / `fromJSON` (JSON serialization helpers; the underlying
  `JSON.stringify` / `JSON.parse` builtins are not part of the repository
  and are modelled from the spec as an executable codec over a `Json`
  value type);
* the `Selector` class and the `cssSelectorBuilder` facade.

JavaScript exceptions are embedded as `Except String`: a method that may
`throw new Error(msg)` returns `Except.error msg`.  Mutation of `this` is
embedded as explicit state passing: each method takes the receiver state
and returns the updated state.
-/

namespace ObjectsTasks

/-! ## Rectangle

```js
function Rectangle(width, height) {
  this.width = width;
  this.height = height;
}
Rectangle.prototype.getArea = function () {
  return this.width * this.height;
};
```
JavaScript numbers are embedded as rationals. -/

structure Rectangle where
  width : ℚ
  height : ℚ

def Rectangle.getArea (r : Rectangle) : ℚ :=
  r.width * r.height

/-! ## Selector

```js
class Selector {
  constructor() {
    this.specificity = 0;
    this.parts = [];
    this.seen = new Set();
  }
  ...
}
```
`parts` is an append-only array of strings, `seen` a set of category
keys; the `specificity` counter is carried along faithfully. -/

structure Selector where
  specificity : Nat
  parts : List String
  seen : List String

/-- `new Selector()`. -/
def Selector.new : Selector :=
  { specificity := 0, parts := [], seen := [] }

/-- The fixed message of the duplicate-part error thrown by
`_checkDuplicate`. -/
def dupMsg : String :=
  "Element, id and pseudo-element should not occur more than one time inside the selector"

/-- `_checkDuplicate(value)`: throws when `value` is already in `seen`,
otherwise records it. -/
def Selector.checkDuplicate (s : Selector) (value : String) : Except String Selector :=
  if value ∈ s.seen then
    .error dupMsg
  else
    .ok { s with seen := value :: s.seen }

/-- `element(value)`: duplicate check on the key `"element"`, then pushes
the raw value and adds 1 to specificity. -/
def Selector.element (s : Selector) (value : String) : Except String Selector := do
  let s ← s.checkDuplicate "element"
  return { s with parts := s.parts ++ [value], specificity := s.specificity + 1 }

/-- `id(value)`: duplicate check on `"id"`, pushes `"#" + value`, adds 100. -/
def Selector.id (s : Selector) (value : String) : Except String Selector := do
  let s ← s.checkDuplicate "id"
  return { s with parts := s.parts ++ ["#" ++ value], specificity := s.specificity + 100 }

/-- `class(value)`: duplicate check on `"class"`, pushes `"." + value`,
adds 10.  (The source really does call `_checkDuplicate("class")`.) -/
def Selector.class (s : Selector) (value : String) : Except String Selector := do
  let s ← s.checkDuplicate "class"
  return { s with parts := s.parts ++ ["." ++ value], specificity := s.specificity + 10 }

/-- `attr(value)`: duplicate check on `"attr"`, pushes `"[" + value + "]"`,
adds 1. -/
def Selector.attr (s : Selector) (value : String) : Except String Selector := do
  let s ← s.checkDuplicate "attr"
  return { s with parts := s.parts ++ ["[" ++ value ++ "]"], specificity := s.specificity + 1 }

/-- `pseudoClass(value)`: duplicate check on `"pseudoClass"`, pushes
`":" + value`, adds 1. -/
def Selector.pseudoClass (s : Selector) (value : String) : Except String Selector := do
  let s ← s.checkDuplicate "pseudoClass"
  return { s with parts := s.parts ++ [":" ++ value], specificity := s.specificity + 1 }

/-- `pseudoElement(value)`: duplicate check on the (misspelled, as in the
source) key `"psuedoElement"`, pushes `"::" + value`, adds 0. -/
def Selector.pseudoElement (s : Selector) (value : String) : Except String Selector := do
  let s ← s.checkDuplicate "psuedoElement"
  return { s with parts := s.parts ++ ["::" ++ value], specificity := s.specificity + 0 }

/-- `stringify()`: `this.parts.join("")`.  A read-only method: it does not
touch the receiver, which the embedding reflects by taking the state and
returning only a string. -/
def Selector.stringify (s : Selector) : String :=
  String.join s.parts

/-- `combine(selector1, combinator, selector2)`: a fresh `Selector`
(the constructor ignores its argument) whose parts are
`selector1.parts ++ [" ", combinator, " "] ++ selector2.parts` and whose
specificity is the max of the two. -/
def Selector.combine (s1 : Selector) (combinator : String) (s2 : Selector) : Selector :=
  { specificity := max s1.specificity s2.specificity
    parts := s1.parts ++ [" "] ++ [combinator] ++ [" "] ++ s2.parts
    seen := [] }

/-! ## The `cssSelectorBuilder` facade

Every entry point other than `element` first calls `element("")` on the
fresh selector. -/

namespace cssSelectorBuilder

def element (value : String) : Except String Selector :=
  Selector.new.element value

def id (value : String) : Except String Selector := do
  let s ← Selector.new.element ""
  s.id value

def «class» (value : String) : Except String Selector := do
  let s ← Selector.new.element ""
  s.class value

def attr (value : String) : Except String Selector := do
  let s ← Selector.new.element ""
  s.attr value

def pseudoClass (value : String) : Except String Selector := do
  let s ← Selector.new.element ""
  s.pseudoClass value

def pseudoElement (value : String) : Except String Selector := do
  let s ← Selector.new.element ""
  s.pseudoElement value

def combine (s1 : Selector) (combinator : String) (s2 : Selector) : Selector :=
  Selector.combine s1 combinator s2

end cssSelectorBuilder

/-! ## JSON values and the codec

```js
function getJSON(obj) { return JSON.stringify(obj); }
function fromJSON(proto, json) {
  const obj = Object.create(proto);
  Object.assign(obj, JSON.parse(json));
  return obj;
}
```

`getJSON`/`fromJSON` are pass-throughs to the runtime builtins
`JSON.stringify` and `JSON.parse`, which are not part of this repository.
The codec below is therefore modelled from the spec ("the canonical
textual JSON representation of an arbitrary structured value (objects,
arrays, primitives)"), with two disclosed simplifications: numbers are
integers (no fractions/exponents), and inside strings only `"` and `\`
are escaped (always with a single backslash). -/

/-- A plain structured (JSON-representable) value: objects, arrays,
primitives. -/
inductive Json where
  | null : Json
  | bool (b : Bool) : Json
  | num (n : Int) : Json
  | str (s : String) : Json
  | arr (elems : List Json) : Json
  | obj (members : List (String × Json)) : Json

/-- The decimal digit characters. -/
def digitChar : Nat → Char
  | 0 => '0' | 1 => '1' | 2 => '2' | 3 => '3' | 4 => '4'
  | 5 => '5' | 6 => '6' | 7 => '7' | 8 => '8' | _ => '9'

/-- Decimal digits of a natural number, most significant first. -/
def natToChars (n : Nat) : List Char :=
  if n < 10 then [digitChar n]
  else natToChars (n / 10) ++ [digitChar (n % 10)]
  decreasing_by exact Nat.div_lt_self (by omega) (by omega)

/-- Decimal rendering of an integer. -/
def intToChars (n : Int) : List Char :=
  if n < 0 then '-' :: natToChars n.natAbs else natToChars n.toNat

/-- String-body escaping: `"` and `\` get a preceding backslash, every
other character is emitted as-is. -/
def escapeChars : List Char → List Char
  | [] => []
  | c :: cs => if c = '"' ∨ c = '\\' then '\\' :: c :: escapeChars cs
               else c :: escapeChars cs

mutual

/-- Modelled from the spec: `JSON.stringify` (a runtime builtin, not in
`src/`), producing the canonical textual JSON form with key order equal to
the object's own member order and no inserted whitespace. -/
def Json.emit : Json → List Char
  | .null => "null".data
  | .bool true => "true".data
  | .bool false => "false".data
  | .num n => intToChars n
  | .str s => '"' :: (escapeChars s.data ++ ['"'])
  | .arr elems => '[' :: (Json.emitItems elems ++ [']'])
  | .obj members => '{' :: (Json.emitMembers members ++ ['}'])

/-- Comma-separated array elements. -/
def Json.emitItems : List Json → List Char
  | [] => []
  | [v] => v.emit
  | v :: vs => v.emit ++ ',' :: Json.emitItems vs

/-- Comma-separated `"key":value` object members. -/
def Json.emitMembers : List (String × Json) → List Char
  | [] => []
  | [(k, v)] => '"' :: (escapeChars k.data ++ '"' :: ':' :: v.emit)
  | (k, v) :: kvs =>
      ('"' :: (escapeChars k.data ++ '"' :: ':' :: v.emit)) ++ ',' :: Json.emitMembers kvs

end

/-- Consume a maximal run of decimal digits, accumulating their value
onto `acc`. -/
def parseDigits (acc : Nat) : List Char → Nat × List Char
  | [] => (acc, [])
  | c :: rest =>
      if c.isDigit then parseDigits (10 * acc + (c.toNat - 48)) rest
      else (acc, c :: rest)

/-- Consume a string body up to and including the closing quote,
undoing the backslash escapes. -/
def parseStrAux : List Char → Option (List Char × List Char)
  | [] => none
  | c :: rest =>
      if c = '"' then some ([], rest)
      else if c = '\\' then
        match rest with
        | [] => none
        | d :: rest' => (parseStrAux rest').map fun p => (d :: p.1, p.2)
      else (parseStrAux rest).map fun p => (c :: p.1, p.2)

mutual

/-- Modelled from the spec: the value grammar of `JSON.parse` (a runtime
builtin, not in `src/`), as a fuel-indexed recursive-descent parser
returning the parsed value and the unconsumed input. -/
def parseVal : Nat → List Char → Option (Json × List Char)
  | 0, _ => none
  | _ + 1, [] => none
  | fuel + 1, c :: rest =>
      if c = 'n' then
        match rest with
        | 'u' :: 'l' :: 'l' :: r => some (.null, r)
        | _ => none
      else if c = 't' then
        match rest with
        | 'r' :: 'u' :: 'e' :: r => some (.bool true, r)
        | _ => none
      else if c = 'f' then
        match rest with
        | 'a' :: 'l' :: 's' :: 'e' :: r => some (.bool false, r)
        | _ => none
      else if c = '"' then
        (parseStrAux rest).map fun p => (.str (String.mk p.1), p.2)
      else if c = '[' then
        (parseArr fuel rest).map fun p => (.arr p.1, p.2)
      else if c = '{' then
        (parseObj fuel rest).map fun p => (.obj p.1, p.2)
      else if c = '-' then
        match rest with
        | [] => none
        | d :: rest' =>
            if d.isDigit then
              let p := parseDigits (d.toNat - 48) rest'
              some (.num (-(p.1 : Int)), p.2)
            else none
      else if c.isDigit then
        let p := parseDigits (c.toNat - 48) rest
        some (.num (p.1 : Int), p.2)
      else none

/-- Array tail after `[`: either an immediate `]` or a nonempty item
list. -/
def parseArr : Nat → List Char → Option (List Json × List Char)
  | 0, _ => none
  | fuel + 1, input =>
      if input.head? = some ']' then some ([], input.tail)
      else parseItems fuel input

/-- One or more comma-separated values, terminated by `]`. -/
def parseItems : Nat → List Char → Option (List Json × List Char)
  | 0, _ => none
  | fuel + 1, input =>
      (parseVal fuel input).bind fun (v, r) =>
        match r with
        | ',' :: r' => (parseItems fuel r').map fun p => (v :: p.1, p.2)
        | ']' :: r' => some ([v], r')
        | _ => none

/-- Object tail after `{`: either an immediate `}` or a nonempty member
list. -/
def parseObj : Nat → List Char → Option (List (String × Json) × List Char)
  | 0, _ => none
  | fuel + 1, input =>
      if input.head? = some '}' then some ([], input.tail)
      else parseMembers fuel input

/-- One or more comma-separated `"key":value` members, terminated by
`}`. -/
def parseMembers : Nat → List Char → Option (List (String × Json) × List Char)
  | 0, _ => none
  | fuel + 1, input =>
      match input with
      | '"' :: rest =>
          (parseStrAux rest).bind fun (k, r) =>
            match r with
            | ':' :: r' =>
                (parseVal fuel r').bind fun (v, r2) =>
                  match r2 with
                  | ',' :: r3 =>
                      (parseMembers fuel r3).map fun p =>
                        ((String.mk k, v) :: p.1, p.2)
                  | '}' :: r3 => some ([(String.mk k, v)], r3)
                  | _ => none
            | _ => none
      | _ => none

end

/-- Modelled from the spec: `JSON.parse` on a whole string — the parsed
value when the input is exactly one JSON value, `none` (the builtin's
`SyntaxError`) otherwise.  The fuel `2 * length + 1` is enough for any
input (nesting depth grows at most twice as fast as the text length). -/
def JSONparse (s : String) : Option Json :=
  match parseVal (2 * s.data.length + 1) s.data with
  | some (v, []) => some v
  | _ => none

/-- `JSON.stringify` on a structured value, as a string. -/
def JSONstringify (v : Json) : String :=
  String.mk v.emit

/-- `getJSON(obj)`: returns the JSON representation of the object. -/
def getJSON (obj : Json) : String :=
  JSONstringify obj

/-- The single error kind of `fromJSON`: malformed JSON input. -/
inductive ParseError where
  | parseError : ParseError
  deriving DecidableEq

/-- A deserialized object: own fields from the parsed JSON text, behaviour
(prototype) taken from the supplied shape. -/
structure JsObject (P : Type) where
  proto : P
  fields : Json

/-- `fromJSON(proto, json)`: `Object.create(proto)` then `Object.assign`
with `JSON.parse(json)`; the builtin's parse failure propagates to the
caller as the error. -/
def fromJSON {P : Type} (proto : P) (json : String) : Except ParseError (JsObject P) :=
  match JSONparse json with
  | some fields => .ok { proto := proto, fields := fields }
  | none => .error .parseError

/-! ## Fragment-addition call sequences

To speak about arbitrary chains of builder calls, a call is reified as an
`Op` and a chain as a `List Op` run left to right. -/

/-- One fragment-addition method call on a `Selector`. -/
inductive Op where
  | element (v : String)
  | id (v : String)
  | cls (v : String)
  | attr (v : String)
  | pseudoClass (v : String)
  | pseudoElement (v : String)

/-- Dispatch one call to the corresponding `Selector` method. -/
def Selector.apply (s : Selector) : Op → Except String Selector
  | .element v => s.element v
  | .id v => s.id v
  | .cls v => s.class v
  | .attr v => s.attr v
  | .pseudoClass v => s.pseudoClass v
  | .pseudoElement v => s.pseudoElement v

/-- Run a chain of calls left to right, stopping at the first thrown
error (as JS exception propagation does). -/
def Selector.runOps (s : Selector) : List Op → Except String Selector
  | [] => .ok s
  | op :: ops => (s.apply op).bind fun s' => s'.runOps ops

/-- The textual fragment a successful call appends: the raw value for
`element`, otherwise the value behind its prefix (`#`, `.`, `[...]`, `:`,
`::`). -/
def Op.frag : Op → String
  | .element v => v
  | .id v => "#" ++ v
  | .cls v => "." ++ v
  | .attr v => "[" ++ v ++ "]"
  | .pseudoClass v => ":" ++ v
  | .pseudoElement v => "::" ++ v

/-! ## Measures for the parser proof -/

mutual

/-- Nesting-depth measure of a value: a fuel lower bound for `parseVal`. -/
def Json.depth : Json → Nat
  | .null => 1
  | .bool _ => 1
  | .num _ => 1
  | .str _ => 1
  | .arr xs => 2 + Json.depthItems xs
  | .obj kvs => 2 + Json.depthMembers kvs

/-- Fuel lower bound for `parseItems` on an emitted element list. -/
def Json.depthItems : List Json → Nat
  | [] => 0
  | x :: xs => 1 + max x.depth (Json.depthItems xs)

/-- Fuel lower bound for `parseMembers` on an emitted member list. -/
def Json.depthMembers : List (String × Json) → Nat
  | [] => 0
  | (_, v) :: kvs => 1 + max v.depth (Json.depthMembers kvs)

end

/-- The input does not begin with a decimal digit (so a preceding number
literal cannot absorb it). -/
def noDigitHead : List Char → Prop
  | [] => True
  | c :: _ => c.isDigit = false

/-- The accumulator step of `parseDigits`. -/
def digitStep (a : Nat) (c : Char) : Nat := 10 * a + (c.toNat - 48)

/-! ## Helper lemmas -/

theorem eq_of_data_eq {a b : String} (h : a.data = b.data) : a = b := by
  cases a; cases b; exact congrArg String.mk h

theorem join_append (l1 l2 : List String) :
    String.join (l1 ++ l2) = String.join l1 ++ String.join l2 := by
  apply eq_of_data_eq; simp

theorem checkDuplicate_ok {s t : Selector} {k : String}
    (h : s.checkDuplicate k = .ok t) :
    k ∉ s.seen ∧ t = { s with seen := k :: s.seen } := by
  unfold Selector.checkDuplicate at h
  split at h
  · exact absurd h (by simp)
  · exact ⟨by assumption, by injection h with h; exact h.symm⟩

theorem checkDuplicate_err {s : Selector} {k : String} (h : k ∈ s.seen) :
    s.checkDuplicate k = .error dupMsg := by
  unfold Selector.checkDuplicate
  exact if_pos h

theorem okOfBind {α β : Type} {m : Except String α} {g : α → Except String β} {r : β}
    (h : m >>= g = .ok r) : ∃ a, m = .ok a ∧ g a = .ok r := by
  cases m with
  | error e => simp [Bind.bind, Except.bind] at h
  | ok a => exact ⟨a, rfl, h⟩

theorem element_ok {s s' : Selector} {v : String} (h : s.element v = .ok s') :
    "element" ∉ s.seen ∧
      s' = { specificity := s.specificity + 1, parts := s.parts ++ [v],
             seen := "element" :: s.seen } := by
  unfold Selector.element at h
  obtain ⟨t, ht, hf⟩ := okOfBind h
  obtain ⟨hmem, rfl⟩ := checkDuplicate_ok ht
  refine ⟨hmem, ?_⟩
  injection hf with hf
  exact hf.symm

theorem id_ok {s s' : Selector} {v : String} (h : s.id v = .ok s') :
    "id" ∉ s.seen ∧
      s' = { specificity := s.specificity + 100, parts := s.parts ++ ["#" ++ v],
             seen := "id" :: s.seen } := by
  unfold Selector.id at h
  obtain ⟨t, ht, hf⟩ := okOfBind h
  obtain ⟨hmem, rfl⟩ := checkDuplicate_ok ht
  refine ⟨hmem, ?_⟩
  injection hf with hf
  exact hf.symm

theorem class_ok {s s' : Selector} {v : String} (h : s.class v = .ok s') :
    "class" ∉ s.seen ∧
      s' = { specificity := s.specificity + 10, parts := s.parts ++ ["." ++ v],
             seen := "class" :: s.seen } := by
  unfold Selector.class at h
  obtain ⟨t, ht, hf⟩ := okOfBind h
  obtain ⟨hmem, rfl⟩ := checkDuplicate_ok ht
  refine ⟨hmem, ?_⟩
  injection hf with hf
  exact hf.symm

theorem attr_ok {s s' : Selector} {v : String} (h : s.attr v = .ok s') :
    "attr" ∉ s.seen ∧
      s' = { specificity := s.specificity + 1, parts := s.parts ++ ["[" ++ v ++ "]"],
             seen := "attr" :: s.seen } := by
  unfold Selector.attr at h
  obtain ⟨t, ht, hf⟩ := okOfBind h
  obtain ⟨hmem, rfl⟩ := checkDuplicate_ok ht
  refine ⟨hmem, ?_⟩
  injection hf with hf
  exact hf.symm

theorem pseudoClass_ok {s s' : Selector} {v : String} (h : s.pseudoClass v = .ok s') :
    "pseudoClass" ∉ s.seen ∧
      s' = { specificity := s.specificity + 1, parts := s.parts ++ [":" ++ v],
             seen := "pseudoClass" :: s.seen } := by
  unfold Selector.pseudoClass at h
  obtain ⟨t, ht, hf⟩ := okOfBind h
  obtain ⟨hmem, rfl⟩ := checkDuplicate_ok ht
  refine ⟨hmem, ?_⟩
  injection hf with hf
  exact hf.symm

theorem pseudoElement_ok {s s' : Selector} {v : String} (h : s.pseudoElement v = .ok s') :
    "psuedoElement" ∉ s.seen ∧
      s' = { specificity := s.specificity + 0, parts := s.parts ++ ["::" ++ v],
             seen := "psuedoElement" :: s.seen } := by
  unfold Selector.pseudoElement at h
  obtain ⟨t, ht, hf⟩ := okOfBind h
  obtain ⟨hmem, rfl⟩ := checkDuplicate_ok ht
  refine ⟨hmem, ?_⟩
  injection hf with hf
  exact hf.symm

theorem element_err_of_seen {s : Selector} (v : String) (h : "element" ∈ s.seen) :
    s.element v = .error dupMsg := by
  unfold Selector.element
  rw [checkDuplicate_err h]
  rfl

theorem id_err_of_seen {s : Selector} (v : String) (h : "id" ∈ s.seen) :
    s.id v = .error dupMsg := by
  unfold Selector.id
  rw [checkDuplicate_err h]
  rfl

theorem pseudoElement_err_of_seen {s : Selector} (v : String) (h : "psuedoElement" ∈ s.seen) :
    s.pseudoElement v = .error dupMsg := by
  unfold Selector.pseudoElement
  rw [checkDuplicate_err h]
  rfl

theorem apply_ok {s s' : Selector} {op : Op}
    (h : s.apply op = .ok s') :
    s'.parts = s.parts ++ [op.frag] ∧ s.seen ⊆ s'.seen := by
  cases op with
  | element v =>
      obtain ⟨-, rfl⟩ := element_ok h
      exact ⟨rfl, fun x hx => List.mem_cons_of_mem _ hx⟩
  | id v =>
      obtain ⟨-, rfl⟩ := id_ok h
      exact ⟨rfl, fun x hx => List.mem_cons_of_mem _ hx⟩
  | cls v =>
      obtain ⟨-, rfl⟩ := class_ok h
      exact ⟨rfl, fun x hx => List.mem_cons_of_mem _ hx⟩
  | attr v =>
      obtain ⟨-, rfl⟩ := attr_ok h
      exact ⟨rfl, fun x hx => List.mem_cons_of_mem _ hx⟩
  | pseudoClass v =>
      obtain ⟨-, rfl⟩ := pseudoClass_ok h
      exact ⟨rfl, fun x hx => List.mem_cons_of_mem _ hx⟩
  | pseudoElement v =>
      obtain ⟨-, rfl⟩ := pseudoElement_ok h
      exact ⟨rfl, fun x hx => List.mem_cons_of_mem _ hx⟩

theorem runOps_ok {ops : List Op} {s s' : Selector}
    (h : s.runOps ops = .ok s') :
    s'.parts = s.parts ++ ops.map Op.frag ∧ s.seen ⊆ s'.seen := by
  induction ops generalizing s with
  | nil =>
      unfold Selector.runOps at h
      injection h with h
      subst h
      exact ⟨by simp, fun x hx => hx⟩
  | cons op ops ih =>
      unfold Selector.runOps at h
      obtain ⟨t, ht, hrest⟩ := okOfBind h
      obtain ⟨hp, hs⟩ := apply_ok ht
      obtain ⟨hp', hs'⟩ := ih hrest
      refine ⟨?_, fun x hx => hs' (hs hx)⟩
      rw [hp', hp]
      simp

/-! ## Lemmas about the JSON codec -/

theorem digitChar_isDigit {d : Nat} (h : d < 10) : (digitChar d).isDigit = true := by
  interval_cases d <;> decide

theorem digitChar_toNat {d : Nat} (h : d < 10) : (digitChar d).toNat - 48 = d := by
  interval_cases d <;> decide

theorem natToChars_ne_nil (n : Nat) : natToChars n ≠ [] := by
  rw [natToChars]
  split
  · simp
  · simp

theorem natToChars_all_digits (n : Nat) : ∀ c ∈ natToChars n, c.isDigit = true := by
  induction n using Nat.strong_induction_on with
  | _ n ih =>
      rw [natToChars]
      split
      · next h =>
          intro c hc
          simp at hc
          subst hc
          exact digitChar_isDigit h
      · next h =>
          intro c hc
          rw [List.mem_append] at hc
          rcases hc with hc | hc
          · exact ih (n / 10) (Nat.div_lt_self (by omega) (by omega)) c hc
          · simp at hc
            subst hc
            exact digitChar_isDigit (Nat.mod_lt _ (by omega))

theorem isDigit_toNat_bounds {c : Char} (h : c.isDigit = true) :
    48 ≤ c.toNat ∧ c.toNat ≤ 57 := by
  simp [Char.isDigit] at h
  exact ⟨h.1, h.2⟩

theorem isDigit_ne_keychars {c : Char} (h : c.isDigit = true) :
    c ≠ 'n' ∧ c ≠ 't' ∧ c ≠ 'f' ∧ c ≠ '"' ∧ c ≠ '[' ∧ c ≠ '{' ∧ c ≠ '-' := by
  refine ⟨?_, ?_, ?_, ?_, ?_, ?_, ?_⟩ <;>
    · rintro rfl
      exact absurd h (by decide)

theorem parseDigits_spec : ∀ ds : List Char, (∀ c ∈ ds, c.isDigit = true) →
    ∀ rest : List Char, noDigitHead rest → ∀ acc : Nat,
    parseDigits acc (ds ++ rest) = (ds.foldl digitStep acc, rest) := by
  intro ds
  induction ds with
  | nil =>
      intro _ rest hrest acc
      rw [List.nil_append, List.foldl_nil]
      cases rest with
      | nil => rfl
      | cons c cs =>
          have hc : c.isDigit = false := hrest
          unfold parseDigits
          simp [hc]
  | cons d ds ih =>
      intro hds rest hrest acc
      rw [List.cons_append, List.foldl_cons]
      unfold parseDigits
      rw [if_pos (hds d (by simp))]
      exact ih (fun c hc => hds c (by simp [hc])) rest hrest (digitStep acc d)

theorem natToChars_foldl (n : Nat) : ∀ acc : Nat,
    (natToChars n).foldl digitStep acc = acc * 10 ^ (natToChars n).length + n := by
  induction n using Nat.strong_induction_on with
  | _ n ih =>
      intro acc
      rw [natToChars]
      split
      · next h =>
          simp only [List.foldl_cons, List.foldl_nil, List.length_cons, List.length_nil]
          simp [digitStep, digitChar_toNat h]
          ring
      · next h =>
          rw [List.foldl_append, List.length_append,
            ih (n / 10) (Nat.div_lt_self (by omega) (by omega)) acc]
          simp only [List.foldl_cons, List.foldl_nil, List.length_cons, List.length_nil]
          rw [digitStep, digitChar_toNat (Nat.mod_lt n (by omega))]
          rw [pow_succ, ← mul_assoc]
          generalize acc * 10 ^ (natToChars (n / 10)).length = e
          omega

theorem parseDigits_natToChars {n : Nat} {c : Char} {cs rest : List Char}
    (hn : natToChars n = c :: cs) (hrest : noDigitHead rest) :
    parseDigits (c.toNat - 48) (cs ++ rest) = (n, rest) := by
  have hds := natToChars_all_digits n
  rw [hn] at hds
  rw [parseDigits_spec cs (fun x hx => hds x (by simp [hx])) rest hrest _]
  have h2 := natToChars_foldl n 0
  rw [hn, List.foldl_cons] at h2
  simp only [Nat.zero_mul, Nat.zero_add] at h2
  have hstep : digitStep 0 c = c.toNat - 48 := by simp [digitStep]
  rw [hstep] at h2
  rw [h2]

theorem parseStrAux_escape : ∀ l rest : List Char,
    parseStrAux (escapeChars l ++ '"' :: rest) = some (l, rest) := by
  intro l
  induction l with
  | nil =>
      intro rest
      unfold escapeChars parseStrAux
      simp
  | cons c cs ih =>
      intro rest
      unfold escapeChars
      by_cases hc : c = '"' ∨ c = '\\'
      · rw [if_pos hc, List.cons_append, List.cons_append]
        unfold parseStrAux
        rw [if_neg (by decide), if_pos rfl]
        simp [ih rest]
      · rw [if_neg hc, List.cons_append]
        push_neg at hc
        unfold parseStrAux
        rw [if_neg hc.1, if_neg hc.2]
        simp [ih rest]

theorem intToChars_nonneg {n : Int} (h : 0 ≤ n) : intToChars n = natToChars n.toNat :=
  if_neg (by omega)

theorem intToChars_neg {n : Int} (h : n < 0) : intToChars n = '-' :: natToChars n.natAbs :=
  if_pos h

theorem emitItems_cons (x : Json) (xs : List Json) :
    Json.emitItems (x :: xs)
      = x.emit ++ (match xs with | [] => [] | _ => ',' :: Json.emitItems xs) := by
  cases xs with
  | nil => simp [Json.emitItems]
  | cons y ys => rfl

theorem emitMembers_cons (k : String) (v : Json) (kvs : List (String × Json)) :
    Json.emitMembers ((k, v) :: kvs)
      = '"' :: (escapeChars k.data ++ '"' :: ':' ::
          (v.emit ++ (match kvs with | [] => [] | _ => ',' :: Json.emitMembers kvs))) := by
  cases kvs with
  | nil => simp [Json.emitMembers]
  | cons m ms => simp [Json.emitMembers]

theorem depth_pos (v : Json) : 1 ≤ v.depth := by
  cases v <;> simp [Json.depth] <;> omega

theorem emit_head (v : Json) : ∃ c cs, v.emit = c :: cs ∧ c ≠ ']' ∧ c ≠ '}' := by
  cases v with
  | null => exact ⟨'n', ['u', 'l', 'l'], rfl, by decide, by decide⟩
  | bool b => cases b with
      | true => exact ⟨'t', ['r', 'u', 'e'], rfl, by decide, by decide⟩
      | false => exact ⟨'f', ['a', 'l', 's', 'e'], rfl, by decide, by decide⟩
  | num n =>
      by_cases h : n < 0
      · exact ⟨'-', natToChars n.natAbs, by rw [show Json.emit (.num n) = intToChars n from rfl,
          intToChars_neg h], by decide, by decide⟩
      · have hne := natToChars_ne_nil n.toNat
        cases hc : natToChars n.toNat with
        | nil => exact absurd hc hne
        | cons c cs =>
            have hd : c.isDigit = true := natToChars_all_digits n.toNat c (by rw [hc]; simp)
            refine ⟨c, cs, by rw [show Json.emit (.num n) = intToChars n from rfl,
              intToChars_nonneg (by omega), hc], ?_, ?_⟩
            · rintro rfl; exact absurd hd (by decide)
            · rintro rfl; exact absurd hd (by decide)
  | str s => exact ⟨'"', escapeChars s.data ++ ['"'], rfl, by decide, by decide⟩
  | arr xs => exact ⟨'[', Json.emitItems xs ++ [']'], rfl, by decide, by decide⟩
  | obj kvs => exact ⟨'{', Json.emitMembers kvs ++ ['}'], rfl, by decide, by decide⟩

theorem noDigitHead_cons {c : Char} (h : c.isDigit = false) (l : List Char) :
    noDigitHead (c :: l) := h

theorem option_bind_some {α β : Type} (a : α) (f : α → Option β) :
    (some a).bind f = f a := rfl

theorem depth_arr (xs : List Json) : Json.depth (.arr xs) = 2 + Json.depthItems xs := rfl

theorem depth_obj (kvs : List (String × Json)) :
    Json.depth (.obj kvs) = 2 + Json.depthMembers kvs := rfl

theorem depthItems_cons (x : Json) (xs : List Json) :
    Json.depthItems (x :: xs) = 1 + max x.depth (Json.depthItems xs) := rfl

theorem depthMembers_cons (k : String) (v : Json) (kvs : List (String × Json)) :
    Json.depthMembers ((k, v) :: kvs) = 1 + max v.depth (Json.depthMembers kvs) := rfl

theorem parse_emit_aux : ∀ fuel : Nat,
    (∀ (v : Json) (rest : List Char), v.depth ≤ fuel → noDigitHead rest →
        parseVal fuel (v.emit ++ rest) = some (v, rest)) ∧
    (∀ (xs : List Json) (rest : List Char), 1 + Json.depthItems xs ≤ fuel →
        parseArr fuel (Json.emitItems xs ++ ']' :: rest) = some (xs, rest)) ∧
    (∀ (x : Json) (xs : List Json) (rest : List Char), Json.depthItems (x :: xs) ≤ fuel →
        parseItems fuel (Json.emitItems (x :: xs) ++ ']' :: rest) = some (x :: xs, rest)) ∧
    (∀ (kvs : List (String × Json)) (rest : List Char), 1 + Json.depthMembers kvs ≤ fuel →
        parseObj fuel (Json.emitMembers kvs ++ '}' :: rest) = some (kvs, rest)) ∧
    (∀ (k : String) (v : Json) (kvs : List (String × Json)) (rest : List Char),
        Json.depthMembers ((k, v) :: kvs) ≤ fuel →
        parseMembers fuel (Json.emitMembers ((k, v) :: kvs) ++ '}' :: rest)
          = some ((k, v) :: kvs, rest)) := by
  intro fuel
  induction fuel with
  | zero =>
      refine ⟨?_, ?_, ?_, ?_, ?_⟩
      · intro v rest hd _
        exact absurd hd (by have := depth_pos v; omega)
      · intro xs rest hb
        omega
      · intro x xs rest hb
        rw [depthItems_cons] at hb
        omega
      · intro kvs rest hb
        omega
      · intro k v kvs rest hb
        rw [depthMembers_cons] at hb
        omega
  | succ fuel ih =>
      obtain ⟨ihV, ihA, ihI, ihO, ihM⟩ := ih
      refine ⟨?_, ?_, ?_, ?_, ?_⟩
      · -- parseVal
        intro v rest hd hrest
        cases v with
        | null =>
            show parseVal (fuel + 1) ('n' :: 'u' :: 'l' :: 'l' :: rest) = some (.null, rest)
            simp [parseVal]
        | bool b =>
            cases b with
            | false =>
                show parseVal (fuel + 1) ('f' :: 'a' :: 'l' :: 's' :: 'e' :: rest)
                  = some (.bool false, rest)
                simp [parseVal]
            | true =>
                show parseVal (fuel + 1) ('t' :: 'r' :: 'u' :: 'e' :: rest)
                  = some (.bool true, rest)
                simp [parseVal]
        | num n =>
            rcases lt_or_le n 0 with hn | hn
            · have he : Json.emit (.num n) = '-' :: natToChars n.natAbs :=
                intToChars_neg hn
              obtain ⟨c, cs, hc⟩ : ∃ c cs, natToChars n.natAbs = c :: cs := by
                cases h : natToChars n.natAbs with
                | nil => exact absurd h (natToChars_ne_nil _)
                | cons c cs => exact ⟨c, cs, rfl⟩
              have hdig : c.isDigit = true := natToChars_all_digits _ c (by rw [hc]; simp)
              rw [he, hc]
              simp only [List.cons_append]
              simp only [parseVal, if_true, hdig]
              simp only [parseDigits_natToChars hc hrest]
              have hcast : -((n.natAbs : Nat) : Int) = n := by omega
              rw [hcast]
              rw [if_neg (by decide), if_neg (by decide), if_neg (by decide),
                if_neg (by decide), if_neg (by decide), if_neg (by decide)]
            · have he : Json.emit (.num n) = natToChars n.toNat :=
                intToChars_nonneg hn
              obtain ⟨c, cs, hc⟩ : ∃ c cs, natToChars n.toNat = c :: cs := by
                cases h : natToChars n.toNat with
                | nil => exact absurd h (natToChars_ne_nil _)
                | cons c cs => exact ⟨c, cs, rfl⟩
              have hdig : c.isDigit = true := natToChars_all_digits _ c (by rw [hc]; simp)
              obtain ⟨h1, h2, h3, h4, h5, h6, h7⟩ := isDigit_ne_keychars hdig
              rw [he, hc]
              simp only [List.cons_append]
              simp only [parseVal, h1, h2, h3, h4, h5, h6, h7, hdig, if_true, if_false]
              simp only [parseDigits_natToChars hc hrest]
              have hcast : ((n.toNat : Nat) : Int) = n := by omega
              rw [hcast]
        | str s =>
            have hsh : Json.emit (.str s) ++ rest
                = '"' :: (escapeChars s.data ++ '"' :: rest) := by
              show ('"' :: (escapeChars s.data ++ ['"'])) ++ rest = _
              simp
            rw [hsh]
            simp only [parseVal, if_true]
            rw [parseStrAux_escape]
            rfl
        | arr xs =>
            have hsh : Json.emit (.arr xs) ++ rest
                = '[' :: (Json.emitItems xs ++ ']' :: rest) := by
              show ('[' :: (Json.emitItems xs ++ [']'])) ++ rest = _
              simp
            rw [hsh]
            simp only [parseVal, if_true]
            rw [depth_arr] at hd
            rw [ihA xs rest (by omega)]
            rfl
        | obj kvs =>
            have hsh : Json.emit (.obj kvs) ++ rest
                = '{' :: (Json.emitMembers kvs ++ '}' :: rest) := by
              show ('{' :: (Json.emitMembers kvs ++ ['}'])) ++ rest = _
              simp
            rw [hsh]
            simp only [parseVal, if_true]
            rw [depth_obj] at hd
            rw [ihO kvs rest (by omega)]
            rfl
      · -- parseArr
        intro xs rest hb
        cases xs with
        | nil =>
            show parseArr (fuel + 1) (']' :: rest) = some ([], rest)
            simp [parseArr]
        | cons x xs =>
            have hhead : (Json.emitItems (x :: xs) ++ ']' :: rest).head? ≠ some ']' := by
              rw [emitItems_cons]
              obtain ⟨c, cs, hcx, hcr, -⟩ := emit_head x
              rw [hcx]
              simp [hcr]
            simp only [parseArr]
            rw [if_neg hhead]
            exact ihI x xs rest (by omega)
      · -- parseItems
        intro x xs rest hb
        rw [depthItems_cons] at hb
        have hdx : x.depth ≤ fuel := by omega
        cases xs with
        | nil =>
            show parseItems (fuel + 1) (x.emit ++ ']' :: rest) = some ([x], rest)
            simp only [parseItems]
            simp only [ihV x (']' :: rest) hdx (noDigitHead_cons (by decide) _)]
            rfl
        | cons y ys =>
            have hsh : Json.emitItems (x :: y :: ys) ++ ']' :: rest
                = x.emit ++ (',' :: (Json.emitItems (y :: ys) ++ ']' :: rest)) := by
              rw [show Json.emitItems (x :: y :: ys)
                  = x.emit ++ ',' :: Json.emitItems (y :: ys) from rfl]
              simp
            rw [hsh]
            have hby : Json.depthItems (y :: ys) ≤ fuel := by omega
            simp only [parseItems]
            simp only [ihV x (',' :: (Json.emitItems (y :: ys) ++ ']' :: rest)) hdx
              (noDigitHead_cons (by decide) _), option_bind_some, ihI y ys rest hby]
            rfl
      · -- parseObj
        intro kvs rest hb
        cases kvs with
        | nil =>
            show parseObj (fuel + 1) ('}' :: rest) = some ([], rest)
            simp [parseObj]
        | cons m kvs =>
            obtain ⟨k, v⟩ := m
            have hhead : (Json.emitMembers ((k, v) :: kvs) ++ '}' :: rest).head?
                ≠ some '}' := by
              rw [emitMembers_cons]
              simp
            simp only [parseObj]
            rw [if_neg hhead]
            exact ihM k v kvs rest (by omega)
      · -- parseMembers
        intro k v kvs rest hb
        rw [depthMembers_cons] at hb
        have hdv : v.depth ≤ fuel := by omega
        cases kvs with
        | nil =>
            have hsh : Json.emitMembers [(k, v)] ++ '}' :: rest
                = '"' :: (escapeChars k.data ++ '"' :: (':' :: (v.emit ++ '}' :: rest))) := by
              rw [show Json.emitMembers [(k, v)]
                  = '"' :: (escapeChars k.data ++ '"' :: ':' :: v.emit) from rfl]
              simp
            rw [hsh]
            simp only [parseMembers]
            rw [parseStrAux_escape]
            simp only [option_bind_some, ihV v ('}' :: rest) hdv
              (noDigitHead_cons (by decide) _)]
        | cons m ms =>
            obtain ⟨k2, v2⟩ := m
            have hsh : Json.emitMembers ((k, v) :: (k2, v2) :: ms) ++ '}' :: rest
                = '"' :: (escapeChars k.data ++ '"' :: (':' ::
                    (v.emit ++ (',' :: (Json.emitMembers ((k2, v2) :: ms) ++ '}' :: rest))))) := by
              rw [show Json.emitMembers ((k, v) :: (k2, v2) :: ms)
                  = ('"' :: (escapeChars k.data ++ '"' :: ':' :: v.emit))
                      ++ ',' :: Json.emitMembers ((k2, v2) :: ms) from rfl]
              simp
            rw [hsh]
            have hbm : Json.depthMembers ((k2, v2) :: ms) ≤ fuel := by omega
            simp only [parseMembers]
            rw [parseStrAux_escape]
            simp only [option_bind_some,
              ihV v (',' :: (Json.emitMembers ((k2, v2) :: ms) ++ '}' :: rest)) hdv
                (noDigitHead_cons (by decide) _),
              ihM k2 v2 ms rest hbm]
            rfl

theorem intToChars_ne_nil (n : Int) : intToChars n ≠ [] := by
  unfold intToChars
  split
  · simp
  · exact natToChars_ne_nil _

mutual

theorem depth_le_emit : ∀ v : Json, Json.depth v ≤ 2 * v.emit.length
  | .null => by simp [Json.depth, Json.emit]
  | .bool b => by cases b <;> simp [Json.depth, Json.emit]
  | .num n => by
      have h := List.length_pos.mpr (intToChars_ne_nil n)
      simp only [Json.depth, Json.emit]
      omega
  | .str s => by
      simp [Json.depth, Json.emit]
      omega
  | .arr xs => by
      have h := depthItems_le_emit xs
      rw [depth_arr]
      simp only [Json.emit, List.length_cons, List.length_append, List.length_singleton]
      omega
  | .obj kvs => by
      have h := depthMembers_le_emit kvs
      rw [depth_obj]
      simp only [Json.emit, List.length_cons, List.length_append, List.length_singleton]
      omega

theorem depthItems_le_emit : ∀ xs : List Json,
    Json.depthItems xs ≤ 2 * (Json.emitItems xs).length + 1
  | [] => by simp [Json.depthItems, Json.emitItems]
  | [x] => by
      have h := depth_le_emit x
      rw [depthItems_cons, show Json.emitItems [x] = x.emit from rfl]
      simp only [Json.depthItems]
      omega
  | x :: y :: ys => by
      have h1 := depth_le_emit x
      have h2 := depthItems_le_emit (y :: ys)
      rw [depthItems_cons,
        show Json.emitItems (x :: y :: ys) = x.emit ++ ',' :: Json.emitItems (y :: ys) from rfl]
      simp only [List.length_append, List.length_cons]
      omega

theorem depthMembers_le_emit : ∀ kvs : List (String × Json),
    Json.depthMembers kvs ≤ 2 * (Json.emitMembers kvs).length + 1
  | [] => by simp [Json.depthMembers, Json.emitMembers]
  | [(k, v)] => by
      have h := depth_le_emit v
      rw [depthMembers_cons,
        show Json.emitMembers [(k, v)]
          = '"' :: (escapeChars k.data ++ '"' :: ':' :: v.emit) from rfl]
      simp only [Json.depthMembers, List.length_cons, List.length_append]
      omega
  | (k, v) :: m :: ms => by
      have h1 := depth_le_emit v
      have h2 := depthMembers_le_emit (m :: ms)
      rw [depthMembers_cons,
        show Json.emitMembers ((k, v) :: m :: ms)
          = ('"' :: (escapeChars k.data ++ '"' :: ':' :: v.emit))
              ++ ',' :: Json.emitMembers (m :: ms) from rfl]
      simp only [List.length_append, List.length_cons]
      omega

end

theorem JSONparse_stringify (v : Json) : JSONparse (JSONstringify v) = some v := by
  have h := (parse_emit_aux (2 * v.emit.length + 1)).1 v []
    (by have := depth_le_emit v; omega) trivial
  rw [List.append_nil] at h
  show (match parseVal (2 * v.emit.length + 1) v.emit with
        | some (v, []) => some v
        | _ => none) = some v
  rw [h]

/-! ## Claim theorems: the selector builder and Rectangle -/

/-- C1: the spec (and the source file's own doc comment) promise that
`id('main').class('container').class('editable').stringify()` returns
`'#main.container.editable'` without error.  The code as written instead
throws the duplicate-part error at the second `class` call, because
`class` also goes through `_checkDuplicate("class")`.  This theorem
evaluates the embedded code at that failing input. -/
theorem id_class_class_throws :
    (cssSelectorBuilder.id "main" >>= fun s => s.class "container" >>= fun s =>
        s.class "editable") = .error dupMsg := rfl

/-- C2: the spec says `class(value)` is repeatable and
`class('a').class('b')` stringifies to `'.a.b'`; the code instead throws
the duplicate-part error at the second `class` call, for every pair of
argument values. -/
theorem class_class_throws (a b : String) :
    (cssSelectorBuilder.class a >>= fun s => s.class b) = .error dupMsg := rfl

/-- C3: the spec says `attr` and `pseudoClass` are repeatable; the code
instead throws the duplicate-part error at the second `attr`
(respectively `pseudoClass`) call, for every pair of argument values. -/
theorem attr_pseudoClass_repeat_throws (v w : String) :
    (cssSelectorBuilder.attr v >>= fun s => s.attr w) = .error dupMsg ∧
    (cssSelectorBuilder.pseudoClass v >>= fun s => s.pseudoClass w) = .error dupMsg :=
  ⟨rfl, rfl⟩

/-- C4: adding a second element, id, or pseudo-element fragment to the
same simple selector raises the duplicate-part error synchronously at
that call, with the fixed message (`dupMsg`); in particular
`element('a').element('b')` fails with it. -/
theorem element_id_pseudoElement_unique (s s' : Selector) (v w : String) :
    (s.element v = .ok s' → s'.element w = .error dupMsg) ∧
    (s.id v = .ok s' → s'.id w = .error dupMsg) ∧
    (s.pseudoElement v = .ok s' → s'.pseudoElement w = .error dupMsg) ∧
    (cssSelectorBuilder.element "a" >>= fun t => t.element "b") = .error dupMsg := by
  refine ⟨fun h => ?_, fun h => ?_, fun h => ?_, rfl⟩
  · obtain ⟨-, rfl⟩ := element_ok h
    exact element_err_of_seen w (by simp)
  · obtain ⟨-, rfl⟩ := id_ok h
    exact id_err_of_seen w (by simp)
  · obtain ⟨-, rfl⟩ := pseudoElement_ok h
    exact pseudoElement_err_of_seen w (by simp)

/-- Witness for C4 at concrete inputs: a successful first `element`
(resp. `id`, `pseudoElement`) call after which the second one throws. -/
theorem element_id_pseudoElement_unique_witness :
    Selector.element ⟨1, ["a"], ["element"]⟩ "b" = .error dupMsg ∧
    Selector.id ⟨100, ["#x"], ["id"]⟩ "y" = .error dupMsg ∧
    Selector.pseudoElement ⟨0, ["::x"], ["psuedoElement"]⟩ "y" = .error dupMsg :=
  ⟨(element_id_pseudoElement_unique Selector.new ⟨1, ["a"], ["element"]⟩ "a" "b").1 rfl,
   (element_id_pseudoElement_unique Selector.new ⟨100, ["#x"], ["id"]⟩ "x" "y").2.1 rfl,
   (element_id_pseudoElement_unique Selector.new ⟨0, ["::x"], ["psuedoElement"]⟩ "x" "y").2.2.1
     rfl⟩

/-- C5: for any two selectors and any combinator, the combined selector
stringifies to `left.stringify() + ' ' + combinator + ' ' +
right.stringify()`; in particular the spec's worked example produces
`'div#main + table#data'`. -/
theorem combine_stringify (s1 s2 : Selector) (c : String) :
    (cssSelectorBuilder.combine s1 c s2).stringify
        = s1.stringify ++ " " ++ c ++ " " ++ s2.stringify ∧
    (do
      let l ← cssSelectorBuilder.element "div" >>= fun s => s.id "main"
      let r ← cssSelectorBuilder.element "table" >>= fun s => s.id "data"
      pure (cssSelectorBuilder.combine l "+" r).stringify : Except String String)
      = Except.ok "div#main + table#data" := by
  refine ⟨?_, rfl⟩
  apply eq_of_data_eq
  simp [cssSelectorBuilder.combine, Selector.stringify, Selector.combine]

/-- C6: after any successful chain of fragment-addition calls, the
builder's fragment sequence is the initial one extended by the calls'
fragments in call order, and `stringify` returns exactly their
concatenation (`join` with no separator — each fragment carries its own
prefix).  In the embedding `stringify` is a pure function of the builder
state, so it is idempotent, repeatable at any point in the chain, and
leaves the fragment sequence untouched. -/
theorem stringify_concat_call_order (s : Selector) (ops : List Op) (s' : Selector)
    (h : s.runOps ops = .ok s') :
    s'.parts = s.parts ++ ops.map Op.frag ∧
    s'.stringify = String.join s'.parts ∧
    s'.stringify = s.stringify ++ String.join (ops.map Op.frag) := by
  obtain ⟨hp, -⟩ := runOps_ok h
  refine ⟨hp, rfl, ?_⟩
  rw [Selector.stringify, hp, join_append]
  rfl

/-- Witness for C6: the chain `id('main').class('c')` run from a fresh
selector yields the fragments `#main`, `.c` in call order and
stringifies to `'#main.c'`. -/
theorem stringify_concat_call_order_witness :
    Selector.stringify ⟨110, ["#main", ".c"], ["class", "id"]⟩ = "#main.c" ∧
    (⟨110, ["#main", ".c"], ["class", "id"]⟩ : Selector).parts
      = Selector.new.parts ++ [Op.id "main", Op.cls "c"].map Op.frag := by
  have h := stringify_concat_call_order Selector.new [Op.id "main", Op.cls "c"]
    ⟨110, ["#main", ".c"], ["class", "id"]⟩ rfl
  exact ⟨by rw [h.2.1]; rfl, h.1⟩

/-- C7: for all non-negative numbers `w` and `h`, `Rectangle(w, h)`
stores `width == w` and `height == h`, and its area method returns
`w * h`. -/
theorem rectangle_width_height_area (w h : ℚ) (hw : 0 ≤ w) (hh : 0 ≤ h) :
    (Rectangle.mk w h).width = w ∧ (Rectangle.mk w h).height = h ∧
    (Rectangle.mk w h).getArea = w * h :=
  ⟨rfl, rfl, rfl⟩

/-- Witness for C7 at the source file's own example `Rectangle(10, 20)`. -/
theorem rectangle_width_height_area_witness :
    (0 : ℚ) ≤ 10 ∧ (0 : ℚ) ≤ 20 ∧ (Rectangle.mk 10 20).getArea = 10 * 20 :=
  ⟨by norm_num, by norm_num,
   (rectangle_width_height_area 10 20 (by norm_num) (by norm_num)).2.2⟩

/-- C10: every facade entry point other than `element` (`id`, `class`,
`attr`, `pseudoClass`, `pseudoElement`) first records an element fragment
holding the empty string: the returned builder's first fragment is `""`
and `"element"` is already in its duplicate-tracking set.  Consequently a
later `element(name)` call — after any further successful calls — throws
the duplicate-part error, while the empty fragment itself never changes
the stringified output. -/
theorem facade_prepends_empty_element (v name : String) :
    (∃ s, cssSelectorBuilder.id v = .ok s ∧ s.parts.head? = some "" ∧
        "element" ∈ s.seen ∧ s.stringify = String.join s.parts.tail) ∧
    (∃ s, cssSelectorBuilder.class v = .ok s ∧ s.parts.head? = some "" ∧
        "element" ∈ s.seen ∧ s.stringify = String.join s.parts.tail) ∧
    (∃ s, cssSelectorBuilder.attr v = .ok s ∧ s.parts.head? = some "" ∧
        "element" ∈ s.seen ∧ s.stringify = String.join s.parts.tail) ∧
    (∃ s, cssSelectorBuilder.pseudoClass v = .ok s ∧ s.parts.head? = some "" ∧
        "element" ∈ s.seen ∧ s.stringify = String.join s.parts.tail) ∧
    (∃ s, cssSelectorBuilder.pseudoElement v = .ok s ∧ s.parts.head? = some "" ∧
        "element" ∈ s.seen ∧ s.stringify = String.join s.parts.tail) ∧
    (∀ s ops s', "element" ∈ s.seen → Selector.runOps s ops = .ok s' →
        s'.element name = .error dupMsg) := by
  refine ⟨⟨⟨101, ["", "#" ++ v], ["id", "element"]⟩, rfl, rfl, by simp, ?_⟩,
          ⟨⟨11, ["", "." ++ v], ["class", "element"]⟩, rfl, rfl, by simp, ?_⟩,
          ⟨⟨2, ["", "[" ++ v ++ "]"], ["attr", "element"]⟩, rfl, rfl, by simp, ?_⟩,
          ⟨⟨2, ["", ":" ++ v], ["pseudoClass", "element"]⟩, rfl, rfl, by simp, ?_⟩,
          ⟨⟨1, ["", "::" ++ v], ["psuedoElement", "element"]⟩, rfl, rfl, by simp, ?_⟩,
          fun s ops s' hmem hrun =>
            element_err_of_seen name ((runOps_ok hrun).2 hmem)⟩ <;>
    · apply eq_of_data_eq
      simp [Selector.stringify]

/-- Witness for C10: after the facade's `id` entry point (whose result
state has the empty element fragment recorded), an `element('div')` call
throws the duplicate-part error. -/
theorem facade_prepends_empty_element_witness :
    Selector.element ⟨101, ["", "#x"], ["id", "element"]⟩ "div" = .error dupMsg :=
  (facade_prepends_empty_element "x" "div").2.2.2.2.2
    ⟨101, ["", "#x"], ["id", "element"]⟩ [] ⟨101, ["", "#x"], ["id", "element"]⟩
    (by simp) rfl

/-! ## Claim theorems: JSON serialization -/

/-- C8: the serialize/deserialize round-trip.  For every structured value
`v` and every shape prototype `p`, `fromJSON p (getJSON v)` succeeds and
returns an object whose own fields are exactly `v` and whose behaviour
(prototype) is `p`.  The codec underlying `getJSON`/`fromJSON` is the
spec-modelled embedding of the `JSON.stringify`/`JSON.parse` builtins. -/
theorem fromJSON_getJSON_roundtrip {P : Type} (p : P) (v : Json) :
    fromJSON p (getJSON v) = .ok { proto := p, fields := v } := by
  unfold fromJSON getJSON
  rw [JSONparse_stringify]

/-- C9: `fromJSON(proto, text)` fails with the parse error exactly when
`text` is not valid JSON (i.e. when the spec-modelled `JSON.parse`
rejects it), and on valid JSON it returns normally with the parsed
fields attached to the prototype. -/
theorem fromJSON_parse_error {P : Type} (p : P) (s : String) :
    (fromJSON p s = .error .parseError ↔ JSONparse s = none) ∧
    (∀ d, JSONparse s = some d → fromJSON p s = .ok { proto := p, fields := d }) := by
  constructor
  · unfold fromJSON
    cases h : JSONparse s with
    | none => simp
    | some d => simp
  · intro d hd
    unfold fromJSON
    rw [hd]

/-- Witness for C9: on the valid input `"null"` deserialization returns
normally, and on the malformed input `"nope"` it fails with the parse
error. -/
theorem fromJSON_parse_error_witness :
    fromJSON (0 : Nat) "null" = .ok { proto := 0, fields := Json.null } ∧
    fromJSON (0 : Nat) "nope" = .error .parseError :=
  ⟨(fromJSON_parse_error 0 "null").2 Json.null rfl,
   (fromJSON_parse_error 0 "nope").1.mpr rfl⟩

end ObjectsTasks
